import Mathlib

/-!
Verification development for the `unreal-engine-mcp` Python repository.

The Python sources embedded here (shallowly) are:
* `Python/unreal_mcp_server_advanced.py` — `UnrealConnection.connect`,
  `UnrealConnection.receive_full_response`, `UnrealConnection.send_command`,
  `get_unreal_connection`, and the maze generator `create_maze` /  `carve_path`;
* `Python/unreal_mcp_server_blueprints.py` — the structurally identical
  connection class (`_receive_full_response`, `send_command`);
* `Python/helpers/blueprint_graph/variable_manager.py` — `create_variable`.

JSON values are modelled by a mutual inductive (`JVal`/`JArr`/`JObj`);
numbers are modelled as unbounded integers (the commands and responses the
claims concern carry no floating point payloads that matter).  `json.dumps`
with its CPython defaults (`ensure_ascii=True`, separators `", "` and
`": "`) is modelled by `dumps`; `json.loads` by the fuelled recursive
descent `jloads`; `bytes.decode('utf-8')` / `str.encode('utf-8')` by
`utf8Decode` / `utf8Str`.  Sockets are modelled by traces of events.
-/

mutual
/-- JSON/Python values as produced by `json.loads` and consumed by
`json.dumps` (dict → `jobj`, list → `jarr`, str → `jstr`, bool → `jbool`,
int → `jint`, None → `jnull`).  Strings are lists of characters; objects are
ordered key/value sequences, as CPython dicts are insertion-ordered. -/
inductive JVal where
  | jnull : JVal
  | jbool : Bool → JVal
  | jint : Int → JVal
  | jstr : List Char → JVal
  | jarr : JArr → JVal
  | jobj : JObj → JVal
deriving DecidableEq
/-- Array payloads of `JVal.jarr`. -/
inductive JArr where
  | anil : JArr
  | acons : JVal → JArr → JArr
deriving DecidableEq
/-- Object payloads of `JVal.jobj`, in insertion order. -/
inductive JObj where
  | onil : JObj
  | ocons : List Char → JVal → JObj → JObj
deriving DecidableEq
end

open JVal JArr JObj

/-- Left brace character, written via its code point. -/
def lbrace : Char := Char.ofNat 123

/-- Right brace character, written via its code point. -/
def rbrace : Char := Char.ofNat 125

/-- Python truthiness of a JSON value (`bool(v)`): `None`, `False`, `0`,
`""`, `[]` and `\x7b\x7d` are falsy, everything else truthy. -/
def truthy : JVal → Bool
  | jnull => false
  | jbool b => b
  | jint n => n ≠ 0
  | jstr s => s ≠ []
  | jarr anil => false
  | jarr (acons _ _) => true
  | jobj onil => false
  | jobj (ocons _ _ _) => true

/-- Dictionary lookup, `d.get(k)` returning `none` when the key is absent.
CPython dicts have unique keys, so first-match lookup is faithful. -/
def dget : JObj → List Char → Option JVal
  | onil, _ => none
  | ocons k v r, key => if k = key then some v else dget r key

/-- Key membership test, Python's `k in d`. -/
def dhas (d : JObj) (key : List Char) : Bool := (dget d key).isSome

/-- Append a fresh binding at the end, Python's `d[k] = v` for a key that is
not yet present (insertion order puts it last). -/
def dappend : JObj → List Char → JVal → JObj
  | onil, k, v => ocons k v onil
  | ocons k' v' r, k, v => ocons k' v' (dappend r k v)

/-- Insert with replacement, the effect of `d[k] = v` in general: an existing
binding is overwritten in place, otherwise the binding is appended. -/
def dset : JObj → List Char → JVal → JObj
  | onil, k, v => ocons k v onil
  | ocons k' v' r, k, v =>
      if k' = k then ocons k' v r else ocons k' v' (dset r k v)

/-- Decimal digits of a natural number, as written by Python's `repr`. -/
def natChars (n : Nat) : List Char :=
  if h : n < 10 then [Char.ofNat (48 + n)]
  else natChars (n / 10) ++ [Char.ofNat (48 + n % 10)]
  decreasing_by exact Nat.div_lt_self (by omega) (by omega)

/-- Decimal rendering of an integer, as `json.dumps` writes `int` values. -/
def intChars (n : Int) : List Char :=
  if n < 0 then '-' :: natChars n.natAbs else natChars n.natAbs

/-- Lowercase hexadecimal digit, as used by `json.dumps` in `\uXXXX`
escapes. -/
def hexDigit (n : Nat) : Char :=
  if n < 10 then Char.ofNat (48 + n) else Char.ofNat (87 + n)

/-- Four-digit lowercase hexadecimal rendering of a code unit. -/
def hex4 (n : Nat) : List Char :=
  [hexDigit (n / 4096 % 16), hexDigit (n / 256 % 16),
   hexDigit (n / 16 % 16), hexDigit (n % 16)]

/-- Escaping of one character by CPython's `json.dumps` with
`ensure_ascii=True`: `"` and `\` get two-character escapes, the control
characters `\b \f \n \r \t` get their short escapes, printable ASCII
(0x20–0x7e) passes through, and everything else becomes `\uXXXX`
(a surrogate pair for code points above 0xFFFF). -/
def escapeChar (c : Char) : List Char :=
  let n := c.toNat
  if c = '"' then ['\\', '"']
  else if c = '\\' then ['\\', '\\']
  else if n = 8 then ['\\', 'b']
  else if n = 12 then ['\\', 'f']
  else if n = 10 then ['\\', 'n']
  else if n = 13 then ['\\', 'r']
  else if n = 9 then ['\\', 't']
  else if 32 ≤ n ∧ n ≤ 126 then [c]
  else if n < 65536 then '\\' :: 'u' :: hex4 n
  else
    ('\\' :: 'u' :: hex4 (55296 + (n - 65536) / 1024)) ++
    ('\\' :: 'u' :: hex4 (56320 + (n - 65536) % 1024))

/-- Escaped body of a JSON string literal. -/
def escapeStr : List Char → List Char
  | [] => []
  | c :: cs => escapeChar c ++ escapeStr cs

/-- Serialized string literal including the surrounding quotes. -/
def dumpStr (s : List Char) : List Char := '"' :: escapeStr s ++ ['"']

mutual
/-- CPython `json.dumps` with default arguments (`ensure_ascii=True`,
item separator `", "`, key separator `": "`), producing the character
sequence of the serialized document. -/
def dumps : JVal → List Char
  | jnull => "null".data
  | jbool true => "true".data
  | jbool false => "false".data
  | jint n => intChars n
  | jstr s => dumpStr s
  | jarr anil => ['[', ']']
  | jarr (acons v vs) => '[' :: (dumps v ++ dumpsArr vs) ++ [']']
  | jobj onil => [lbrace, rbrace]
  | jobj (ocons k v r) =>
      lbrace :: (dumpStr k ++ ':' :: ' ' :: dumps v ++ dumpsObj r) ++ [rbrace]
/-- Remaining array items, each preceded by the item separator `", "`. -/
def dumpsArr : JArr → List Char
  | anil => []
  | acons v vs => ',' :: ' ' :: dumps v ++ dumpsArr vs
/-- Remaining object items, each preceded by the item separator `", "`. -/
def dumpsObj : JObj → List Char
  | onil => []
  | ocons k v r => ',' :: ' ' :: (dumpStr k ++ ':' :: ' ' :: dumps v) ++ dumpsObj r
end

/-- UTF-8 encoding of one character (`str.encode('utf-8')`), as the list of
its byte values. -/
def utf8Char (c : Char) : List Nat :=
  let n := c.toNat
  if n < 128 then [n]
  else if n < 2048 then [192 + n / 64, 128 + n % 64]
  else if n < 65536 then [224 + n / 4096, 128 + n / 64 % 64, 128 + n % 64]
  else [240 + n / 262144, 128 + n / 4096 % 64, 128 + n / 64 % 64, 128 + n % 64]

/-- UTF-8 encoding of a character sequence. -/
def utf8Str : List Char → List Nat
  | [] => []
  | c :: cs => utf8Char c ++ utf8Str cs

/-- JSON whitespace skipping (space, tab, newline, carriage return), as the
CPython decoder does between tokens. -/
def skipWs : List Char → List Char
  | [] => []
  | c :: cs =>
      if c = ' ' ∨ c = '\t' ∨ c = '\n' ∨ c = '\r' then skipWs cs else c :: cs

/-- Value of one hexadecimal digit, accepting both cases. -/
def hexVal (c : Char) : Option Nat :=
  let n := c.toNat
  if 48 ≤ n ∧ n ≤ 57 then some (n - 48)
  else if 97 ≤ n ∧ n ≤ 102 then some (n - 87)
  else if 65 ≤ n ∧ n ≤ 70 then some (n - 55)
  else none

/-- Four hexadecimal digits of a `\uXXXX` escape. -/
def parseHex4 : List Char → Option (Nat × List Char)
  | a :: b :: c :: d :: rest =>
      match hexVal a, hexVal b, hexVal c, hexVal d with
      | some x, some y, some z, some w => some (((x * 16 + y) * 16 + z) * 16 + w, rest)
      | _, _, _, _ => none
  | _ => none

/-- Body of a JSON string literal after the opening quote, with CPython's
strict rules: raw control characters below 0x20 are rejected, the escapes
are the nine standard ones plus `\uXXXX`, and a high surrogate followed by
a `\u` low surrogate combines into one code point. -/
def parseStrBody : Nat → List Char → Option (List Char × List Char)
  | 0, _ => none
  | _ + 1, [] => none
  | fuel + 1, c :: cs =>
    if c = '"' then some ([], cs)
    else if c = '\\' then
      match cs with
      | [] => none
      | e :: cs1 =>
        if e = '"' ∨ e = '\\' ∨ e = '/' then
          (parseStrBody fuel cs1).map (fun p => (e :: p.1, p.2))
        else if e = 'b' then
          (parseStrBody fuel cs1).map (fun p => (Char.ofNat 8 :: p.1, p.2))
        else if e = 'f' then
          (parseStrBody fuel cs1).map (fun p => (Char.ofNat 12 :: p.1, p.2))
        else if e = 'n' then
          (parseStrBody fuel cs1).map (fun p => ('\n' :: p.1, p.2))
        else if e = 'r' then
          (parseStrBody fuel cs1).map (fun p => (Char.ofNat 13 :: p.1, p.2))
        else if e = 't' then
          (parseStrBody fuel cs1).map (fun p => ('\t' :: p.1, p.2))
        else if e = 'u' then
          match parseHex4 cs1 with
          | none => none
          | some (n, cs2) =>
            if 55296 ≤ n ∧ n < 56320 then
              match cs2 with
              | '\\' :: 'u' :: cs3 =>
                match parseHex4 cs3 with
                | some (m, cs4) =>
                  if 56320 ≤ m ∧ m < 57344 then
                    (parseStrBody fuel cs4).map
                      (fun p => (Char.ofNat (65536 + (n - 55296) * 1024 + (m - 56320)) :: p.1, p.2))
                  else (parseStrBody fuel cs2).map (fun p => (Char.ofNat n :: p.1, p.2))
                | none => (parseStrBody fuel cs2).map (fun p => (Char.ofNat n :: p.1, p.2))
              | _ => (parseStrBody fuel cs2).map (fun p => (Char.ofNat n :: p.1, p.2))
            else (parseStrBody fuel cs2).map (fun p => (Char.ofNat n :: p.1, p.2))
        else none
    else if c.toNat < 32 then none
    else (parseStrBody fuel cs).map (fun p => (c :: p.1, p.2))

/-- Split off the leading run of decimal digits. -/
def splitDigits : List Char → List Char × List Char
  | [] => ([], [])
  | c :: cs =>
      if 48 ≤ c.toNat ∧ c.toNat ≤ 57 then
        let p := splitDigits cs
        (c :: p.1, p.2)
      else ([], c :: cs)

/-- Numeric value of a digit run. -/
def digitsToNat (ds : List Char) : Nat :=
  ds.foldl (fun acc c => acc * 10 + (c.toNat - 48)) 0

/-- JSON integer literal: optional minus sign, then `0` or a nonzero-led
digit run; leading zeros are rejected, as JSON requires.  A following `.`,
`e` or `E` would start a float literal, which this model does not support
and rejects (the commands and responses relevant to the claims are
float-free). -/
def parseNum (cs : List Char) : Option (JVal × List Char) :=
  let sp : Bool × List Char :=
    match cs with
    | '-' :: rest => (true, rest)
    | _ => (false, cs)
  let dp := splitDigits sp.2
  match dp.1 with
  | [] => none
  | d0 :: dtl =>
    if d0 = '0' ∧ dtl ≠ [] then none
    else
      let v : JVal :=
        jint (if sp.1 then -(digitsToNat dp.1 : Int) else (digitsToNat dp.1 : Int))
      match dp.2 with
      | c :: _ => if c = '.' ∨ c = 'e' ∨ c = 'E' then none else some (v, dp.2)
      | [] => some (v, dp.2)

/-- Build a dict from parsed key/value items by successive `d[k] = v`, so a
duplicate key keeps its first position and last value, as `json.loads`
does. -/
def buildObj (items : List (List Char × JVal)) : JObj :=
  items.foldl (fun d p => dset d p.1 p.2) onil

mutual
/-- Recursive-descent JSON value grammar of the CPython decoder, fuelled to
make the recursion structural.  Consumes one value and returns the rest of
the input. -/
def parseVal : Nat → List Char → Option (JVal × List Char)
  | 0, _ => none
  | _ + 1, [] => none
  | fuel + 1, c :: cs =>
    if c = 'n' then
      match cs with
      | 'u' :: 'l' :: 'l' :: rest => some (jnull, rest)
      | _ => none
    else if c = 't' then
      match cs with
      | 'r' :: 'u' :: 'e' :: rest => some (jbool true, rest)
      | _ => none
    else if c = 'f' then
      match cs with
      | 'a' :: 'l' :: 's' :: 'e' :: rest => some (jbool false, rest)
      | _ => none
    else if c = '"' then
      (parseStrBody (cs.length + 1) cs).map (fun p => (jstr p.1, p.2))
    else if c = '[' then
      match skipWs cs with
      | ']' :: rest => some (jarr anil, rest)
      | cs1 => (parseArrItems fuel cs1).map (fun p => (jarr p.1, p.2))
    else if c = lbrace then
      match skipWs cs with
      | r :: rest =>
          if r = rbrace then some (jobj onil, rest)
          else (parseObjItems fuel (r :: rest)).map (fun p => (jobj (buildObj p.1), p.2))
      | [] => none
    else if c = '-' ∨ (48 ≤ c.toNat ∧ c.toNat ≤ 57) then parseNum (c :: cs)
    else none
/-- One or more comma-separated array elements up to the closing bracket. -/
def parseArrItems : Nat → List Char → Option (JArr × List Char)
  | 0, _ => none
  | fuel + 1, cs =>
    match parseVal fuel (skipWs cs) with
    | none => none
    | some (v, rest) =>
      match skipWs rest with
      | ',' :: rest1 => (parseArrItems fuel rest1).map (fun p => (acons v p.1, p.2))
      | ']' :: rest1 => some (acons v anil, rest1)
      | _ => none
/-- One or more comma-separated `"key": value` members up to the closing
brace, returned as an item list (combined by `buildObj`). -/
def parseObjItems : Nat → List Char → Option (List (List Char × JVal) × List Char)
  | 0, _ => none
  | fuel + 1, cs =>
    match skipWs cs with
    | '"' :: cs1 =>
      match parseStrBody (cs1.length + 1) cs1 with
      | none => none
      | some (key, rest) =>
        match skipWs rest with
        | ':' :: rest1 =>
          match parseVal fuel (skipWs rest1) with
          | none => none
          | some (v, rest2) =>
            match skipWs rest2 with
            | ',' :: rest3 =>
                (parseObjItems fuel rest3).map (fun p => ((key, v) :: p.1, p.2))
            | r :: rest3 =>
                if r = rbrace then some ([(key, v)], rest3) else none
            | [] => none
        | _ => none
    | _ => none
end

/-- CPython `json.loads`: skip surrounding whitespace, parse exactly one
value, and reject trailing garbage. -/
def jloads (cs : List Char) : Option JVal :=
  match parseVal (2 * cs.length + 8) (skipWs cs) with
  | some (v, rest) => if skipWs rest = [] then some v else none
  | none => none

/-- Strict UTF-8 decoding (`bytes.decode('utf-8')`): rejects overlong
encodings, surrogates, out-of-range code points, and truncated or stray
continuation bytes. -/
def utf8Decode : List Nat → Option (List Char)
  | [] => some []
  | b :: bs =>
    if b < 128 then (utf8Decode bs).map (fun l => Char.ofNat b :: l)
    else if b < 194 then none
    else if b < 224 then
      match bs with
      | b1 :: bs1 =>
        if 128 ≤ b1 ∧ b1 < 192 then
          (utf8Decode bs1).map (fun l => Char.ofNat ((b - 192) * 64 + (b1 - 128)) :: l)
        else none
      | [] => none
    else if b < 240 then
      match bs with
      | b1 :: b2 :: bs2 =>
        if (128 ≤ b1 ∧ b1 < 192) ∧ (128 ≤ b2 ∧ b2 < 192) then
          let n := (b - 224) * 4096 + (b1 - 128) * 64 + (b2 - 128)
          if n < 2048 ∨ (55296 ≤ n ∧ n < 57344) then none
          else (utf8Decode bs2).map (fun l => Char.ofNat n :: l)
        else none
      | _ => none
    else if b < 245 then
      match bs with
      | b1 :: b2 :: b3 :: bs3 =>
        if (128 ≤ b1 ∧ b1 < 192) ∧ ((128 ≤ b2 ∧ b2 < 192) ∧ (128 ≤ b3 ∧ b3 < 192)) then
          let n := (b - 240) * 262144 + (b1 - 128) * 4096 + (b2 - 128) * 64 + (b3 - 128)
          if n < 65536 ∨ 1114111 < n then none
          else (utf8Decode bs3).map (fun l => Char.ofNat n :: l)
        else none
      | _ => none
    else none

/-- Module constant `UNREAL_HOST`. -/
def UNREAL_HOST : List Char := "127.0.0.1".data

/-- Module constant `UNREAL_PORT`. -/
def UNREAL_PORT : Nat := 55557

/-- State of an `UnrealConnection` object: its `socket` and `connected`
attributes.  Live socket objects are identified by numeric handles. -/
structure Conn where
  sock : Option Nat
  connected : Bool
deriving DecidableEq

/-- Outcome of one `connect()` attempt, distinguishing where in its `try`
block the exception (if any) is raised, since that decides which attributes
have already been assigned. -/
inductive ConnectOutcome where
  | ok
  | failConnect
  | failCreate
deriving DecidableEq

/-- Observable socket-level operations, recorded in order. -/
inductive NetOp where
  | closeSock : Nat → NetOp
  | connectTo : List Char → Nat → NetOp
  | sendBytes : List Nat → NetOp
deriving DecidableEq

/-- Outcome of one `sock.recv(buffer_size)` call: a byte chunk (empty means
the peer closed the connection), a `socket.timeout`, or another raised
exception carrying `str(e)`. -/
inductive RecvEvent where
  | chunk : List Nat → RecvEvent
  | timeout : RecvEvent
  | recvErr : List Char → RecvEvent
deriving DecidableEq

/-- How `receive_full_response` finishes: returning bytes, returning `None`
(falling off the end of the function after `break`), or raising an
exception with the given `str(e)`. -/
inductive RecvOutcome where
  | ok : List Nat → RecvOutcome
  | retNone : RecvOutcome
  | exn : List Char → RecvOutcome
deriving DecidableEq

/-- Placeholder for `str(e)` of the `UnicodeDecodeError` raised by
`data.decode('utf-8')` on undecodable bytes (the CPython text names the
offending byte and offset, which the model does not reproduce). -/
def udeMsg : List Char := "utf-8 codec cannot decode received bytes".data

/-- The `str(e)` of the `AttributeError` raised by `response_data.decode`
when `receive_full_response` returned `None`. -/
def noneDecodeMsg : List Char :=
  "\x27NoneType\x27 object has no attribute \x27decode\x27".data

/-- Placeholder for `str(e)` of the `AttributeError` raised by
`response.get(...)` when `json.loads` produced a non-dict (the CPython text
names the concrete type). -/
def getAttrMsg : List Char :=
  "response object has no attribute \x27get\x27".data

/-- The `str(e)` of the `AttributeError` raised by
`response.get("success")` inside `create_variable` when `send_command`
returned `None`. -/
def noneGetMsg : List Char :=
  "\x27NoneType\x27 object has no attribute \x27get\x27".data

/-- Whether accumulated bytes decode as UTF-8 and then parse as JSON —
the success condition of `json.loads(data.decode('utf-8'))`. -/
def jparsesBytes (bs : List Nat) : Bool :=
  match utf8Decode bs with
  | some s => (jloads s).isSome
  | none => false

/-- The `except socket.timeout` handler of `receive_full_response`: if some
chunks were accumulated and they parse as JSON, return them; otherwise raise
`Exception("Timeout receiving Unreal response")`. -/
def timeoutCase (acc : List Nat) : RecvOutcome :=
  if acc ≠ [] ∧ jparsesBytes acc then RecvOutcome.ok acc
  else RecvOutcome.exn "Timeout receiving Unreal response".data

/-- `UnrealConnection.receive_full_response` (advanced server lines
108-150; identically `_receive_full_response` in the blueprints server):
driven by the trace of `recv` outcomes, with `acc` the bytes of the chunks
joined so far.  Each nonempty chunk is appended, the joined bytes are
decoded (a decode failure propagates out of the loop as an exception) and
probed with `json.loads`; a parse success returns the bytes, a failure
continues reading.  An empty chunk with nothing accumulated raises; an
empty chunk after data `break`s out of the loop, and the function then
falls off its end, returning `None`.  An exhausted trace stands for the
blocking `recv` hitting the 30-second socket timeout. -/
def receiveFullResponse : List RecvEvent → List Nat → RecvOutcome
  | [], acc => timeoutCase acc
  | RecvEvent.timeout :: _, acc => timeoutCase acc
  | RecvEvent.recvErr e :: _, _ => RecvOutcome.exn e
  | RecvEvent.chunk [] :: _, acc =>
      if acc = [] then RecvOutcome.exn "Connection closed before receiving data".data
      else RecvOutcome.retNone
  | RecvEvent.chunk (b :: cbs) :: evs, acc =>
      let data := acc ++ b :: cbs
      match utf8Decode data with
      | none => RecvOutcome.exn udeMsg
      | some s =>
          if (jloads s).isSome then RecvOutcome.ok data
          else receiveFullResponse evs data

/-- `UnrealConnection.connect` (advanced server lines 67-96): close any
existing socket and clear it, create a fresh socket, and connect it to
`(UNREAL_HOST, UNREAL_PORT)`.  On success `connected` is set; if an
exception is raised the handler only sets `connected = False`, so after a
failed `connect(...)` call the `socket` attribute still holds the fresh,
unconnected socket object.  Returns (success, new state, socket trace). -/
def connectModel (c : Conn) (out : ConnectOutcome) (newSock : Nat) :
    Bool × Conn × List NetOp :=
  let closes : List NetOp :=
    match c.sock with
    | some s => [NetOp.closeSock s]
    | none => []
  match out with
  | ConnectOutcome.ok =>
      (true, ⟨some newSock, true⟩, closes ++ [NetOp.connectTo UNREAL_HOST UNREAL_PORT])
  | ConnectOutcome.failConnect =>
      (false, ⟨some newSock, false⟩, closes ++ [NetOp.connectTo UNREAL_HOST UNREAL_PORT])
  | ConnectOutcome.failCreate =>
      (false, ⟨none, false⟩, closes)

/-- The failure dictionary built by `send_command`'s generic exception
handler: `{"status": "error", "error": str(e)}`. -/
def errDict (msg : List Char) : JObj :=
  ocons "status".data (jstr "error".data) (ocons "error".data (jstr msg) onil)

/-- `error_message = response.get("error") or response.get("message",
"Unknown Unreal error")`: the `error` value when present and truthy,
otherwise the `message` value when the key is present (even if falsy),
otherwise the literal `"Unknown Unreal error"`. -/
def errMsgOf (r : JObj) : JVal :=
  let fromMessage : JVal :=
    match dget r "message".data with
    | some m => m
    | none => jstr "Unknown Unreal error".data
  match dget r "error".data with
  | some v => if truthy v then v else fromMessage
  | none => fromMessage

/-- Error-shape normalization in `send_command` (advanced server lines
182-194, blueprints server lines 145-154): a `status == "error"` response
without an `"error"` key gets one appended; a `success is False` response is
replaced wholesale by `{"status": "error", "error": error_message}`; any
other response is returned untouched. -/
def normalizeResp (r : JObj) : JObj :=
  if dget r "status".data = some (jstr "error".data) then
    (if dhas r "error".data then r else dappend r "error".data (errMsgOf r))
  else if dget r "success".data = some (jbool false) then
    ocons "status".data (jstr "error".data) (ocons "error".data (errMsgOf r) onil)
  else r

/-- Python `params or {}`: `None` (and the falsy empty dict) becomes the
empty dict. -/
def paramsOr : Option JObj → JObj
  | none => onil
  | some d => d

/-- The `command_obj` dictionary `{"type": command, "params": params or
\x7b\x7d}` built by `send_command`. -/
def commandObj (cmd : List Char) (params : Option JObj) : JObj :=
  ocons "type".data (jstr cmd) (ocons "params".data (jobj (paramsOr params)) onil)

/-- The exact bytes passed to `sendall`:
`json.dumps(command_obj).encode('utf-8')`. -/
def commandBytes (cmd : List Char) (params : Option JObj) : List Nat :=
  utf8Str (dumps (jobj (commandObj cmd params)))

/-- Return value, final object state and socket trace of one
`send_command` call. -/
structure SendResult where
  ret : Option JObj
  conn : Conn
  trace : List NetOp
deriving DecidableEq

/-- The close of any socket left from a previous call, performed at the top
of `send_command` (and by `connect()` for its part). -/
def preCloses (conn : Conn) : List NetOp :=
  match conn.sock with
  | some s => [NetOp.closeSock s]
  | none => []

/-- The `try` body of `send_command` after a successful `connect()`:
serialize and send the command, receive, parse and error-normalize the
response, and close the socket.  Returns the Python return value and the
socket operations after the connect.  When `sendall` raises, nothing is
transmitted; when `receive_full_response` raises, the generic handler
yields `{"status": "error", "error": str(e)}`; when it returns `None`
(its fall-off-the-end path), `response_data.decode` raises
`AttributeError`, likewise caught; when `json.loads` yields a non-dict,
`response.get` raises `AttributeError`, likewise caught.  Every exit, the
normal one and the handler, closes and clears the socket. -/
def sendPhase (cmd : List Char) (params : Option JObj) (newSock : Nat)
    (sendErr : Option (List Char)) (evs : List RecvEvent) :
    Option JObj × List NetOp :=
  match sendErr with
  | some e => (some (errDict e), [NetOp.closeSock newSock])
  | none =>
      (match receiveFullResponse evs [] with
       | RecvOutcome.exn e => some (errDict e)
       | RecvOutcome.retNone => some (errDict noneDecodeMsg)
       | RecvOutcome.ok data =>
         match utf8Decode data with
         | none => some (errDict udeMsg)
         | some s =>
           match jloads s with
           | none => some (errDict "json decode error".data)
           | some (jobj r) => some (normalizeResp r)
           | some _ => some (errDict getAttrMsg),
       [NetOp.sendBytes (commandBytes cmd params), NetOp.closeSock newSock])

/-- `UnrealConnection.send_command` (advanced server lines 152-217,
blueprints server lines 117-172).  Inputs beyond the Python arguments are
the prior object state and the environment: the connect outcome, the handle
of the freshly created socket, whether `sendall` raises (with `str(e)`),
and the `recv` trace.  Steps: close and clear any leftover socket; call
`connect()`, returning `None` if it fails (leaving `connect()`'s final
state); otherwise run the send/receive phase, whose every exit — normal or
through the generic exception handler — leaves the object with
`socket = None` and `connected = False`. -/
def sendCommandModel (conn : Conn) (cmd : List Char) (params : Option JObj)
    (cOut : ConnectOutcome) (newSock : Nat) (sendErr : Option (List Char))
    (evs : List RecvEvent) : SendResult :=
  let c := connectModel ⟨none, false⟩ cOut newSock
  if ¬ c.1 then ⟨none, c.2.1, preCloses conn ++ c.2.2⟩
  else
    let p := sendPhase cmd params newSock sendErr evs
    ⟨p.1, ⟨none, false⟩, preCloses conn ++ c.2.2 ++ p.2⟩

/-- `get_unreal_connection` (advanced server lines 222-234): when the
global handle exists it is returned untouched; otherwise a fresh
`UnrealConnection` is constructed and connected, and on connect failure the
global is reset to `None` and `None` is returned.  The returned value is
also the new value of the global `_unreal_connection`. -/
def getUnrealConnection (g : Option Conn) (cOut : ConnectOutcome) (newSock : Nat) :
    Option Conn × List NetOp :=
  match g with
  | some c => (some c, [])
  | none =>
      let c := connectModel ⟨none, false⟩ cOut newSock
      if c.1 then (some c.2.1, c.2.2) else (none, c.2.2)

/-- The `params` dictionary built by `create_variable`
(variable_manager.py lines 56-70): the three mandatory keys, then
`default_value` when not `None`, `is_public` when truthy, `tooltip` when
nonempty, and `category` when different from `"Default"`. -/
def createVariableParams (bn vn vt : List Char) (dv : Option JVal)
    (isPub : Bool) (tooltip : List Char) (category : List Char) : JObj :=
  let p0 := ocons "blueprint_name".data (jstr bn)
      (ocons "variable_name".data (jstr vn)
        (ocons "variable_type".data (jstr vt) onil))
  let p1 := match dv with
    | some v => dset p0 "default_value".data v
    | none => p0
  let p2 := if isPub then dset p1 "is_public".data (jbool isPub) else p1
  let p3 := if tooltip ≠ [] then dset p2 "tooltip".data (jstr tooltip) else p2
  if category ≠ "Default".data then dset p3 "category".data (jstr category) else p3

/-- Result handling of `create_variable` (variable_manager.py lines 72-90):
the `send_command` response is returned as-is; when `send_command` returned
`None`, the `response.get("success")` call raises `AttributeError`, which
the generic handler turns into `{"success": False, "error": str(e)}`. -/
def createVariableResult (response : Option JObj) : JObj :=
  match response with
  | some r => r
  | none => ocons "success".data (jbool false) (ocons "error".data (jstr noneGetMsg) onil)

/-- Outer exception handling of `create_maze` (advanced server lines
1259-1262 and 1354-1356): the body's outcome (abstracted, since the
spawning calls need the live engine) is returned as-is when it completes,
and any exception `e` it raises is caught and turned into
`{"success": False, "message": str(e)}`. -/
def createMazeOuter (body : Except (List Char) JObj) : JObj :=
  match body with
  | Except.ok r => r
  | Except.error e =>
      ocons "success".data (jbool false) (ocons "message".data (jstr e) onil)

/-- The maze grid of `create_maze`: `maze[i][j]` with `True` meaning wall.
Python's list-of-lists is modelled as a total function on integer indices;
`carve_path` only ever reads or writes in-bounds positions, so the
behaviours agree. -/
def Maze := Int → Int → Bool

/-- Grid update `maze[i][j] = b`. -/
def mset (m : Maze) (i j : Int) (b : Bool) : Maze :=
  fun i' j' => if i' = i ∧ j' = j then b else m i' j'

/-- The direction list `[(0, 1), (1, 0), (0, -1), (-1, 0)]` before
`random.shuffle` permutes it. -/
def baseDirs : List (Int × Int) := [(0, 1), (1, 0), (0, -1), (-1, 0)]

/-- The freshly allocated grid
`[[True for _ in range(cols*2+1)] for _ in range(rows*2+1)]`. -/
def initMaze : Maze := fun _ _ => true

/-- The bounds check `0 <= new_row < rows and 0 <= new_col < cols`. -/
def cellInRange (rows cols : Nat) (u : Int × Int) : Bool :=
  decide (0 ≤ u.1 ∧ u.1 < (rows : Int) ∧ 0 ≤ u.2 ∧ u.2 < (cols : Int))

mutual
/-- `carve_path(row, col)` (advanced server lines 1270-1287): mark the
cell's center open, then for each direction of this cell's shuffle, if the
neighbour is in bounds and its center is still walled, open the wall
between the two cells and recurse into the neighbour.  The genuinely
recursive Python function is embedded with fuel: each invocation consumes
exactly one unit, and `none` means the fuel ran out.  Since each cell's
direction list is shuffled exactly once (a cell is entered at most once),
the randomness is supplied as one permutation per cell. -/
def carveF (shuffle : Int × Int → List (Int × Int)) (rows cols : Nat) :
    Nat → Maze → Int × Int → Option Maze
  | 0, _, _ => none
  | fuel + 1, m, u =>
      carveLoopF shuffle rows cols fuel
        (mset m (2 * u.1 + 1) (2 * u.2 + 1) false) u (shuffle u)
termination_by fuel _ _ => (fuel, 0)
/-- The `for dr, dc in directions` loop of `carve_path`. -/
def carveLoopF (shuffle : Int × Int → List (Int × Int)) (rows cols : Nat) :
    Nat → Maze → Int × Int → List (Int × Int) → Option Maze
  | _, m, _, [] => some m
  | fuel, m, u, d :: ds =>
      let nu : Int × Int := (u.1 + d.1, u.2 + d.2)
      if cellInRange rows cols nu && m (2 * nu.1 + 1) (2 * nu.2 + 1) then
        match carveF shuffle rows cols fuel
            (mset m (2 * u.1 + 1 + d.1) (2 * u.2 + 1 + d.2) false) nu with
        | none => none
        | some m2 => carveLoopF shuffle rows cols fuel m2 u ds
      else carveLoopF shuffle rows cols fuel m u ds
termination_by fuel _ _ ds => (fuel, ds.length + 1)
end

/-- The maze grid at the end of `create_maze`'s generation phase (advanced
server lines 1267-1294): a fresh all-wall grid, `carve_path(0, 0)`, then
the entrance `maze[1][0]` and the exit `maze[rows*2 - 1][cols*2]` are
opened.  `rows * cols` units of fuel are supplied, one per cell. -/
def createMazeGrid (shuffle : Int × Int → List (Int × Int)) (rows cols : Nat) :
    Option Maze :=
  match carveF shuffle rows cols (rows * cols) initMaze (0, 0) with
  | none => none
  | some m =>
      some (mset (mset m 1 0 false) (2 * (rows : Int) - 1) (2 * (cols : Int)) false)

/-- Number of in-bounds cell centers that are still walls — the quantity
that strictly decreases across recursive `carve_path` invocations. -/
def wcount (rows cols : Nat) (m : Maze) : Nat :=
  ((Finset.range rows ×ˢ Finset.range cols).filter
    (fun p => m (2 * (p.1 : Int) + 1) (2 * (p.2 : Int) + 1) = true)).card

/-- A path of open grid cells from `a` to `b`: every cell on it is open
(`False`) and consecutive cells are orthogonally adjacent. -/
inductive OpenPath (m : Maze) : Int × Int → Int × Int → Prop
  | refl (p : Int × Int) (h : m p.1 p.2 = false) : OpenPath m p p
  | step (p q r : Int × Int) (h : m p.1 p.2 = false)
      (hadj : (p.1 - q.1).natAbs + (p.2 - q.2).natAbs = 1)
      (hq : OpenPath m q r) : OpenPath m p r
/-- C9: when the initial TCP connection attempt fails (`connect()` returns
`False`), `send_command` returns `None` rather than a failure dictionary,
so a caller immediately invoking `.get` on the returned value operates on
`None`.  This holds in both server variants, which share the model. -/
theorem sendCommand_none_on_connect_failure
    (conn : Conn) (cmd : List Char) (params : Option JObj)
    (cOut : ConnectOutcome) (newSock : Nat) (sendErr : Option (List Char))
    (evs : List RecvEvent) (h : cOut ≠ ConnectOutcome.ok) :
    (sendCommandModel conn cmd params cOut newSock sendErr evs).ret = none := by
  cases cOut with
  | ok => exact absurd rfl h
  | failConnect => simp [sendCommandModel, connectModel]
  | failCreate => simp [sendCommandModel, connectModel]

/-- Witness for C9 at a concrete failing connect. -/
theorem sendCommand_none_on_connect_failure_witness :
    (sendCommandModel ⟨none, false⟩ "ping".data none ConnectOutcome.failCreate 0
        none []).ret = none :=
  sendCommand_none_on_connect_failure _ _ _ _ _ _ _ (by decide)

/-- C4 (amended): whenever the receive routine returns a byte string, that
byte string decodes as UTF-8 and parses as valid JSON; every other exit is
an exception — except the peer-close-after-unparsable-data path, on which
the loop `break`s and the function falls off its end, returning `None`
(see the counterexample). -/
theorem receive_ok_implies_parsable (evs : List RecvEvent) (acc data : List Nat)
    (h : receiveFullResponse evs acc = RecvOutcome.ok data) :
    jparsesBytes data = true := by
  induction evs generalizing acc with
  | nil =>
    unfold receiveFullResponse timeoutCase at h
    split at h
    · rename_i hcond
      cases h
      exact hcond.2
    · cases h
  | cons ev evs ih =>
    cases ev with
    | timeout =>
      unfold receiveFullResponse timeoutCase at h
      split at h
      · rename_i hcond
        cases h
        exact hcond.2
      · cases h
    | recvErr e => cases h
    | chunk c =>
      cases c with
      | nil =>
        unfold receiveFullResponse at h
        split at h <;> cases h
      | cons b cbs =>
        unfold receiveFullResponse at h
        dsimp only at h
        split at h
        · cases h
        · rename_i s hdec
          split at h
          · rename_i hp
            cases h
            unfold jparsesBytes
            rw [hdec]
            exact hp
          · exact ih _ h

/-- C4 counterexample: after one unparsable chunk (`"\x7b"`), an empty
`recv` (peer closed) makes the loop `break`, and the function returns
`None` — neither JSON-parsable bytes nor an exception. -/
theorem receive_none_after_close :
    receiveFullResponse [RecvEvent.chunk [123], RecvEvent.chunk []] []
      = RecvOutcome.retNone := by decide

/-- Witness for C4 on a trace delivering `"\x7b\x7d"` in one chunk. -/
theorem receive_ok_implies_parsable_witness :
    jparsesBytes [123, 125] = true :=
  receive_ok_implies_parsable [RecvEvent.chunk [123, 125]] [] [123, 125] (by decide)

/-- C6 (amended): the global handle is lazily constructed (an existing
handle is returned untouched by `get_unreal_connection`); every
`send_command` call first discards any socket from a previous call (the
first trace entry closes it) before reconnecting; `connected` is `False` on
every exit path; and on every exit path through the send/receive phase the
socket handle is cleared — but on the initial-connection-failure path the
`socket` attribute may still hold the fresh, unconnected socket object (see
the counterexample).  No TCP connection is reused across two commands,
since every call closes what was left and connects afresh. -/
theorem sendCommand_resets_connection
    (conn : Conn) (cmd : List Char) (params : Option JObj)
    (cOut : ConnectOutcome) (newSock : Nat) (sendErr : Option (List Char))
    (evs : List RecvEvent) (g : Conn) :
    (getUnrealConnection (some g) cOut newSock = (some g, [])) ∧
    (∀ s, conn.sock = some s →
        (sendCommandModel conn cmd params cOut newSock sendErr evs).trace.take 1
          = [NetOp.closeSock s]) ∧
    ((sendCommandModel conn cmd params cOut newSock sendErr evs).conn.connected
        = false) ∧
    (cOut ≠ ConnectOutcome.failConnect →
        (sendCommandModel conn cmd params cOut newSock sendErr evs).conn
          = ⟨none, false⟩) := by
  refine ⟨rfl, ?_, ?_, ?_⟩
  · intro s hs
    unfold sendCommandModel
    dsimp only
    split <;> simp [preCloses, hs]
  · unfold sendCommandModel
    dsimp only
    split
    · cases cOut <;> simp_all [connectModel]
    · rfl
  · intro hne
    cases cOut with
    | ok => simp [sendCommandModel, connectModel]
    | failConnect => exact absurd rfl hne
    | failCreate => simp [sendCommandModel, connectModel]

/-- C6 counterexample: when `connect()` raises after creating the fresh
socket (`self.socket.connect(...)` fails), `send_command` exits with
`connected == False` but with the `socket` attribute still holding the
fresh socket object — the handle is not cleared on this exit path. -/
theorem sendCommand_connect_failure_keeps_socket :
    (sendCommandModel ⟨none, false⟩ "ping".data none ConnectOutcome.failConnect 7
        none []).conn = ⟨some 7, false⟩ := by decide

/-- Witness for C6 at concrete arguments. -/
theorem sendCommand_resets_connection_witness :
    (sendCommandModel ⟨some 3, false⟩ "ping".data none ConnectOutcome.failCreate 0
        none []).trace.take 1 = [NetOp.closeSock 3] ∧
    (sendCommandModel ⟨some 3, false⟩ "ping".data none ConnectOutcome.failCreate 0
        none []).conn = ⟨none, false⟩ :=
  ⟨(sendCommand_resets_connection ⟨some 3, false⟩ "ping".data none
      ConnectOutcome.failCreate 0 none [] ⟨none, false⟩).2.1 3 rfl,
   (sendCommand_resets_connection ⟨some 3, false⟩ "ping".data none
      ConnectOutcome.failCreate 0 none [] ⟨none, false⟩).2.2.2 (by decide)⟩

/-- C3 (amended): every exception raised during a command is caught
generically and turned into a returned failure dictionary instead of
propagating; the helper wrappers return `{"success": False,
"error"/"message": str(e)}` (`create_variable` / `create_maze`
respectively), while `send_command`'s own handler returns
`{"status": "error", "error": str(e)}` — which in particular is what a
socket error during send or receive produces (see the counterexample for
the shape difference from the claim). -/
theorem errors_become_failure_dicts :
    (∀ (conn : Conn) (cmd : List Char) (params : Option JObj) (newSock : Nat)
        (evs : List RecvEvent) (e : List Char),
      (sendCommandModel conn cmd params ConnectOutcome.ok newSock (some e) evs).ret
        = some (errDict e)) ∧
    (∀ (conn : Conn) (cmd : List Char) (params : Option JObj) (newSock : Nat)
        (evs : List RecvEvent) (e : List Char),
      receiveFullResponse evs [] = RecvOutcome.exn e →
      (sendCommandModel conn cmd params ConnectOutcome.ok newSock none evs).ret
        = some (errDict e)) ∧
    (createVariableResult none
      = ocons "success".data (jbool false)
          (ocons "error".data (jstr noneGetMsg) onil)) ∧
    (∀ e, createMazeOuter (Except.error e)
      = ocons "success".data (jbool false)
          (ocons "message".data (jstr e) onil)) := by
  refine ⟨?_, ?_, rfl, fun e => rfl⟩
  · intro conn cmd params newSock evs e
    simp [sendCommandModel, connectModel, sendPhase]
  · intro conn cmd params newSock evs e hrecv
    simp [sendCommandModel, connectModel, sendPhase, hrecv]

/-- C3 counterexample: a socket error during the receive phase makes
`send_command` return `{"status": "error", "error": str(e)}`, a dictionary
with no `"success"` key at all — not of the claimed form
`{"success": False, "message"/"error": str(e)}`. -/
theorem sendCommand_failure_dict_lacks_success_key :
    (sendCommandModel ⟨none, false⟩ "ping".data none ConnectOutcome.ok 0 none
        [RecvEvent.recvErr "Connection reset by peer".data]).ret
      = some (errDict "Connection reset by peer".data) ∧
    dget (errDict "Connection reset by peer".data) "success".data = none := by
  constructor
  · decide
  · decide

/-- Witness for C3 at a concrete erroring trace. -/
theorem errors_become_failure_dicts_witness :
    (sendCommandModel ⟨none, false⟩ "cmd".data none ConnectOutcome.ok 0 none
        [RecvEvent.recvErr "boom".data]).ret = some (errDict "boom".data) :=
  errors_become_failure_dicts.2.1 ⟨none, false⟩ "cmd".data none 0
    [RecvEvent.recvErr "boom".data] "boom".data (by decide)

/-- Code points below the surrogate range round-trip through
`Char.ofNat`. -/
theorem toNat_ofNat_lt (n : Nat) (h : n < 55296) : (Char.ofNat n).toNat = n := by
  unfold Char.ofNat
  rw [dif_pos (Or.inl h)]
  show (Char.ofNatAux n _).toNat = n
  unfold Char.ofNatAux Char.toNat
  simp [UInt32.toNat, UInt32.ofNat']

/-- Digits written by `natChars` are printable ASCII. -/
theorem natChars_printable (n : Nat) :
    ∀ c ∈ natChars n, 32 ≤ c.toNat ∧ c.toNat ≤ 126 := by
  induction n using Nat.strong_induction_on with
  | _ n ih =>
    unfold natChars
    split
    · rename_i h
      intro c hc
      simp at hc
      subst hc
      rw [toNat_ofNat_lt _ (by omega)]
      omega
    · rename_i h
      intro c hc
      rw [List.mem_append] at hc
      rcases hc with hc | hc
      · exact ih (n / 10) (Nat.div_lt_self (by omega) (by omega)) c hc
      · simp at hc
        subst hc
        rw [toNat_ofNat_lt _ (by omega)]
        have := Nat.mod_lt n (show 0 < 10 by omega)
        omega

/-- Characters written by `intChars` are printable ASCII. -/
theorem intChars_printable (n : Int) :
    ∀ c ∈ intChars n, 32 ≤ c.toNat ∧ c.toNat ≤ 126 := by
  intro c hc
  unfold intChars at hc
  split at hc
  · rcases List.mem_cons.mp hc with rfl | hc
    · decide
    · exact natChars_printable _ c hc
  · exact natChars_printable _ c hc

/-- Hexadecimal digits are printable ASCII. -/
theorem hexDigit_printable (n : Nat) (h : n < 16) :
    32 ≤ (hexDigit n).toNat ∧ (hexDigit n).toNat ≤ 126 := by
  unfold hexDigit
  split <;> rw [toNat_ofNat_lt _ (by omega)] <;> omega

/-- All four digits of `hex4` are printable ASCII. -/
theorem hex4_printable (n : Nat) :
    ∀ c ∈ hex4 n, 32 ≤ c.toNat ∧ c.toNat ≤ 126 := by
  intro c hc
  unfold hex4 at hc
  simp at hc
  rcases hc with rfl | rfl | rfl | rfl <;>
    exact hexDigit_printable _ (Nat.mod_lt _ (by omega))

/-- `escapeChar` only emits printable ASCII — in particular, never a raw
newline. -/
theorem escapeChar_printable (c : Char) :
    ∀ x ∈ escapeChar c, 32 ≤ x.toNat ∧ x.toNat ≤ 126 := by
  intro x hx
  unfold escapeChar at hx
  dsimp only at hx
  split at hx
  · simp at hx; rcases hx with rfl | rfl <;> decide
  · split at hx
    · simp at hx; rcases hx with rfl | rfl <;> decide
    · split at hx
      · simp at hx; rcases hx with rfl | rfl <;> decide
      · split at hx
        · simp at hx; rcases hx with rfl | rfl <;> decide
        · split at hx
          · simp at hx; rcases hx with rfl | rfl <;> decide
          · split at hx
            · simp at hx; rcases hx with rfl | rfl <;> decide
            · split at hx
              · simp at hx; rcases hx with rfl | rfl <;> decide
              · split at hx
                · rename_i hrange
                  simp at hx
                  subst hx
                  exact hrange
                · split at hx
                  · simp at hx
                    rcases hx with rfl | rfl | hmem
                    · decide
                    · decide
                    · exact hex4_printable _ x hmem
                  · rw [List.mem_append] at hx
                    rcases hx with hx | hx <;>
                      simp at hx <;>
                      rcases hx with rfl | rfl | hmem <;>
                      first
                        | decide
                        | exact hex4_printable _ x hmem

/-- `escapeStr` only emits printable ASCII. -/
theorem escapeStr_printable (s : List Char) :
    ∀ x ∈ escapeStr s, 32 ≤ x.toNat ∧ x.toNat ≤ 126 := by
  induction s with
  | nil => intro x hx; simp [escapeStr] at hx
  | cons c cs ih =>
    intro x hx
    unfold escapeStr at hx
    rw [List.mem_append] at hx
    rcases hx with hx | hx
    · exact escapeChar_printable c x hx
    · exact ih x hx

/-- Serialized string literals are printable ASCII. -/
theorem dumpStr_printable (s : List Char) :
    ∀ x ∈ dumpStr s, 32 ≤ x.toNat ∧ x.toNat ≤ 126 := by
  intro x hx
  unfold dumpStr at hx
  rcases List.mem_cons.mp hx with rfl | hx
  · decide
  · simp only [List.append_eq] at hx
    rw [List.mem_append] at hx
    rcases hx with hx | hx
    · exact escapeStr_printable s x hx
    · simp at hx; subst hx; decide

mutual
/-- Every character emitted by `dumps` is printable ASCII (0x20–0x7e). -/
theorem dumps_printable (v : JVal) :
    ∀ x ∈ dumps v, 32 ≤ x.toNat ∧ x.toNat ≤ 126 := by
  cases v with
  | jnull =>
    intro x hx
    have e : dumps jnull = ['n', 'u', 'l', 'l'] := rfl
    rw [e] at hx
    simp at hx
    rcases hx with rfl | rfl | rfl | rfl <;> decide
  | jbool b =>
    cases b with
    | true =>
      intro x hx
      have e : dumps (jbool true) = ['t', 'r', 'u', 'e'] := rfl
      rw [e] at hx
      simp at hx
      rcases hx with rfl | rfl | rfl | rfl <;> decide
    | false =>
      intro x hx
      have e : dumps (jbool false) = ['f', 'a', 'l', 's', 'e'] := rfl
      rw [e] at hx
      simp at hx
      rcases hx with rfl | rfl | rfl | rfl | rfl <;> decide
  | jint n =>
    intro x hx
    exact intChars_printable n x hx
  | jstr s =>
    intro x hx
    exact dumpStr_printable s x hx
  | jarr a =>
    cases a with
    | anil =>
      intro x hx
      simp [dumps] at hx
      rcases hx with rfl | rfl <;> decide
    | acons v vs =>
      intro x hx
      have e : dumps (jarr (acons v vs))
          = '[' :: (dumps v ++ dumpsArr vs) ++ [']'] := rfl
      rw [e] at hx
      simp only [List.cons_append, List.mem_cons, List.mem_append,
        List.mem_singleton, List.not_mem_nil, or_false] at hx
      rcases hx with rfl | (hx | hx) | rfl
      · decide
      · exact dumps_printable v x hx
      · exact dumpsArr_printable vs x hx
      · decide
  | jobj o =>
    cases o with
    | onil =>
      intro x hx
      have e : dumps (jobj onil) = [lbrace, rbrace] := rfl
      rw [e] at hx
      simp at hx
      rcases hx with rfl | rfl <;> decide
    | ocons k v r =>
      intro x hx
      have e : dumps (jobj (ocons k v r))
          = lbrace :: (dumpStr k ++ ':' :: ' ' :: dumps v ++ dumpsObj r)
              ++ [rbrace] := rfl
      rw [e] at hx
      simp only [List.cons_append, List.mem_cons, List.mem_append,
        List.mem_singleton, List.not_mem_nil, or_false] at hx
      rcases hx with rfl | ((hx | (rfl | rfl | hx)) | hx) | rfl
      · decide
      · exact dumpStr_printable k x hx
      · decide
      · decide
      · exact dumps_printable v x hx
      · exact dumpsObj_printable r x hx
      · decide
/-- Every character emitted by `dumpsArr` is printable ASCII. -/
theorem dumpsArr_printable (a : JArr) :
    ∀ x ∈ dumpsArr a, 32 ≤ x.toNat ∧ x.toNat ≤ 126 := by
  cases a with
  | anil => intro x hx; simp [dumpsArr] at hx
  | acons v vs =>
    intro x hx
    have e : dumpsArr (acons v vs) = ',' :: ' ' :: dumps v ++ dumpsArr vs := rfl
    rw [e] at hx
    simp only [List.cons_append, List.mem_cons, List.mem_append] at hx
    rcases hx with rfl | rfl | hx | hx
    · decide
    · decide
    · exact dumps_printable v x hx
    · exact dumpsArr_printable vs x hx
/-- Every character emitted by `dumpsObj` is printable ASCII. -/
theorem dumpsObj_printable (o : JObj) :
    ∀ x ∈ dumpsObj o, 32 ≤ x.toNat ∧ x.toNat ≤ 126 := by
  cases o with
  | onil => intro x hx; simp [dumpsObj] at hx
  | ocons k v r =>
    intro x hx
    have e : dumpsObj (ocons k v r)
        = ',' :: ' ' :: (dumpStr k ++ ':' :: ' ' :: dumps v) ++ dumpsObj r := rfl
    rw [e] at hx
    simp only [List.cons_append, List.mem_cons, List.mem_append] at hx
    rcases hx with rfl | rfl | (hx | (rfl | rfl | hx)) | hx
    · decide
    · decide
    · exact dumpStr_printable k x hx
    · decide
    · decide
    · exact dumps_printable v x hx
    · exact dumpsObj_printable r x hx
end

/-- UTF-8 encoding of a printable-ASCII character sequence yields bytes in
32..126 only. -/
theorem utf8Str_printable (cs : List Char)
    (h : ∀ c ∈ cs, 32 ≤ c.toNat ∧ c.toNat ≤ 126) :
    ∀ b ∈ utf8Str cs, 32 ≤ b ∧ b ≤ 126 := by
  induction cs with
  | nil => intro b hb; simp [utf8Str] at hb
  | cons c cs ih =>
    intro b hb
    unfold utf8Str at hb
    rw [List.mem_append] at hb
    rcases hb with hb | hb
    · have hc := h c (by simp)
      unfold utf8Char at hb
      dsimp only at hb
      rw [if_pos (by omega)] at hb
      simp at hb
      subst hb
      omega
    · exact ih (fun c' hc' => h c' (List.mem_cons_of_mem _ hc')) b hb

/-- C7: for every command string and params dictionary — including ones
whose string values contain newline characters — the byte sequence written
to the socket contains no newline byte: `json.dumps` escapes embedded
newlines inside strings (and, with `ensure_ascii`, emits printable ASCII
only), so the payload on the wire is newline-free JSON. -/
theorem sendCommand_payload_newline_free (cmd : List Char) (params : Option JObj) :
    ∀ b ∈ commandBytes cmd params, b ≠ 10 := by
  intro b hb
  have h := utf8Str_printable (dumps (jobj (commandObj cmd params)))
    (dumps_printable _) b hb
  omega

/-- Witness for C7: the first payload byte of a concrete command is not a
newline. -/
theorem sendCommand_payload_newline_free_witness :
    (123 ∈ commandBytes "a".data none) ∧ (123 : Nat) ≠ 10 :=
  ⟨by decide, sendCommand_payload_newline_free "a".data none 123 (by decide)⟩

/-- Appending a fresh key leaves other lookups unchanged. -/
theorem dget_dappend_of_ne (d : JObj) (k key : List Char) (v : JVal)
    (h : key ≠ k) : dget (dappend d k v) key = dget d key := by
  match d with
  | onil => simp [dappend, dget, Ne.symm h]
  | ocons k' v' r =>
    have ih := dget_dappend_of_ne r k key v h
    by_cases hk : k' = key <;> simp [dappend, dget, hk, ih]

/-- Appending a key that was absent makes it found with the new value. -/
theorem dget_dappend_self (d : JObj) (k : List Char) (v : JVal)
    (h : dhas d k = false) : dget (dappend d k v) k = some v := by
  match d with
  | onil => simp [dappend, dget]
  | ocons k' v' r =>
    by_cases hk : k' = k
    · exfalso
      simp [dhas, dget, hk] at h
    · simp only [dappend, dget, if_neg hk]
      exact dget_dappend_self r k v (by simpa [dhas, dget, hk] using h)

/-- A false `dhas` means the lookup is `none`. -/
theorem dget_eq_none_of_dhas_false (d : JObj) (k : List Char)
    (h : dhas d k = false) : dget d k = none := by
  unfold dhas at h
  cases hd : dget d k with
  | none => rfl
  | some v => rw [hd] at h; cases h

/-- C8: `send_command` normalizes engine error responses before returning
them.  If the parsed response has `status == "error"` but no `"error"`
key, an `"error"` key is added, bound to the response's `"message"` value
(`"Unknown Unreal error"` when absent), while every other key keeps its
value (and a response that already has an `"error"` key is returned
untouched).  If instead the response has `success` `is False`, the entire
response is replaced by the two-key `{"status": "error", "error": m}`,
with `m` as computed by `errMsgOf` (the truthy `"error"` value, else the
`"message"` value, else `"Unknown Unreal error"`), discarding every other
key, including `"result"`. -/
theorem sendCommand_error_normalization (r : JObj) :
    (dget r "status".data = some (jstr "error".data) →
      (dhas r "error".data = true → normalizeResp r = r) ∧
      (dhas r "error".data = false →
        dget (normalizeResp r) "error".data
            = some (match dget r "message".data with
                    | some m => m
                    | none => jstr "Unknown Unreal error".data) ∧
        ∀ k, k ≠ "error".data → dget (normalizeResp r) k = dget r k)) ∧
    (dget r "status".data ≠ some (jstr "error".data) →
      dget r "success".data = some (jbool false) →
      normalizeResp r
        = ocons "status".data (jstr "error".data)
            (ocons "error".data (errMsgOf r) onil)) := by
  constructor
  · intro hst
    constructor
    · intro he
      simp [normalizeResp, hst, he]
    · intro he
      have hnorm : normalizeResp r = dappend r "error".data (errMsgOf r) := by
        simp [normalizeResp, hst, he]
      have hmsg : errMsgOf r
          = (match dget r "message".data with
             | some m => m
             | none => jstr "Unknown Unreal error".data) := by
        unfold errMsgOf
        rw [dget_eq_none_of_dhas_false r _ he]
      constructor
      · rw [hnorm, dget_dappend_self r _ _ he, hmsg]
      · intro k hk
        rw [hnorm, dget_dappend_of_ne r _ _ _ hk]
  · intro hst hsucc
    simp [normalizeResp, hst, hsucc]

/-- Witness for C8 on two concrete responses. -/
theorem sendCommand_error_normalization_witness :
    dget (normalizeResp (ocons "status".data (jstr "error".data)
        (ocons "message".data (jstr "boom".data) onil))) "error".data
      = some (jstr "boom".data) ∧
    normalizeResp (ocons "success".data (jbool false)
        (ocons "result".data (jint 5) onil))
      = ocons "status".data (jstr "error".data)
          (ocons "error".data (jstr "Unknown Unreal error".data) onil) := by
  constructor
  · exact ((sendCommand_error_normalization (ocons "status".data (jstr "error".data)
        (ocons "message".data (jstr "boom".data) onil))).1 (by decide)).2
        (by decide) |>.1
  · have h := (sendCommand_error_normalization (ocons "success".data (jbool false)
        (ocons "result".data (jint 5) onil))).2 (by decide) (by decide)
    rw [h]
    decide

/-- Setting a key makes it found with the new value. -/
theorem dget_dset_self (d : JObj) (k : List Char) (v : JVal) :
    dget (dset d k v) k = some v := by
  match d with
  | onil => simp [dset, dget]
  | ocons k' v' r =>
    by_cases hk : k' = k <;>
      simp [dset, dget, hk, dget_dset_self r k v]

/-- Setting a key leaves other lookups unchanged. -/
theorem dget_dset_of_ne (d : JObj) (k key : List Char) (v : JVal)
    (h : key ≠ k) : dget (dset d k v) key = dget d key := by
  match d with
  | onil => simp [dset, dget, Ne.symm h]
  | ocons k' v' r =>
    by_cases h1 : k' = k
    · subst h1
      simp [dset, dget, Ne.symm h]
    · by_cases h2 : k' = key <;>
        simp [dset, dget, h1, h2, h, dget_dset_of_ne r k key v h]

/-- C5: for every command string `c` and params argument `p`, the message
transmitted by `send_command` is exactly the UTF-8 encoding of the JSON
serialization of the two-key object `{"type": c, "params": p}`, with `p`
replaced by the empty object when the caller passed `None` (or the falsy
empty dict) — and the trace carries exactly one transmitted message.  The
command builders are stateless marshallers of their arguments: the params
dictionary built by `create_variable` holds its three mandatory keys and
includes `default_value`, `is_public`, `tooltip` and `category` only when
they differ from their defaults (`None`, `False`, `""`, `"Default"`). -/
theorem sendCommand_marshals_exact_json
    (conn : Conn) (cmd : List Char) (params : Option JObj) (newSock : Nat)
    (evs : List RecvEvent) :
    ((sendCommandModel conn cmd params ConnectOutcome.ok newSock none evs).trace.filterMap
        (fun op => match op with
          | NetOp.sendBytes bs => some bs
          | _ => none)
      = [utf8Str (dumps (jobj (ocons "type".data (jstr cmd)
          (ocons "params".data (jobj (paramsOr params)) onil))))]) ∧
    paramsOr none = onil ∧ (∀ d, paramsOr (some d) = d) ∧
    (∀ (bn vn vt : List Char) (dv : Option JVal) (isPub : Bool)
        (tooltip cat : List Char),
      dget (createVariableParams bn vn vt dv isPub tooltip cat)
          "blueprint_name".data = some (jstr bn) ∧
      dget (createVariableParams bn vn vt dv isPub tooltip cat)
          "variable_name".data = some (jstr vn) ∧
      dget (createVariableParams bn vn vt dv isPub tooltip cat)
          "variable_type".data = some (jstr vt) ∧
      dget (createVariableParams bn vn vt dv isPub tooltip cat)
          "default_value".data = dv ∧
      dget (createVariableParams bn vn vt dv isPub tooltip cat)
          "is_public".data = (if isPub then some (jbool true) else none) ∧
      dget (createVariableParams bn vn vt dv isPub tooltip cat)
          "tooltip".data = (if tooltip ≠ [] then some (jstr tooltip) else none) ∧
      dget (createVariableParams bn vn vt dv isPub tooltip cat)
          "category".data
        = (if cat ≠ "Default".data then some (jstr cat) else none)) := by
  refine ⟨?_, rfl, fun d => rfl, ?_⟩
  · cases hs : conn.sock <;>
      simp [sendCommandModel, connectModel, sendPhase, preCloses, hs,
        commandBytes, commandObj, List.filterMap]
  · intro bn vn vt dv isPub tooltip cat
    unfold createVariableParams
    cases dv <;> by_cases hp : isPub <;> by_cases ht : tooltip ≠ [] <;>
        by_cases hc : cat ≠ "Default".data <;>
      simp only [hp, ht, hc, if_true, if_false, ite_true, ite_false,
        Bool.false_eq_true, not_true, not_false_iff] <;>
      refine ⟨?_, ?_, ?_, ?_, ?_, ?_, ?_⟩ <;>
      simp_all [dget_dset_self, dget_dset_of_ne, dget, dset]

/-- C1 (amended): on every call whose connection attempt succeeds and whose
receive loop returns bytes, `send_command` performs exactly this sequence:
it closes any socket left from a previous call, opens a fresh TCP
connection to 127.0.0.1:55557, sends exactly one JSON-encoded message (the
serialized `{"type": command, "params": params or \x7b\x7d}`), reads the
response by repeated `recv` until the accumulated bytes parse as valid JSON
(or a timeout occurs), closes the socket — and returns the parsed result
*after error-shape normalization* (`normalizeResp`), not the raw parsed
dictionary (see the counterexample). -/
theorem sendCommand_protocol_sequence
    (conn : Conn) (cmd : List Char) (params : Option JObj) (newSock : Nat)
    (evs : List RecvEvent) (data : List Nat) (s : List Char) (r : JObj)
    (hrecv : receiveFullResponse evs [] = RecvOutcome.ok data)
    (hdec : utf8Decode data = some s)
    (hparse : jloads s = some (jobj r)) :
    sendCommandModel conn cmd params ConnectOutcome.ok newSock none evs
      = ⟨some (normalizeResp r), ⟨none, false⟩,
         preCloses conn ++
         [NetOp.connectTo UNREAL_HOST UNREAL_PORT,
          NetOp.sendBytes (utf8Str (dumps (jobj (commandObj cmd params)))),
          NetOp.closeSock newSock]⟩ := by
  simp [sendCommandModel, connectModel, sendPhase, hrecv, hdec, hparse,
    commandBytes]

/-- C1 counterexample: the engine replies `{"success": false}`;
`json.loads` parses it to that one-key dictionary, but `send_command`
returns the normalized replacement `{"status": "error", "error": "Unknown
Unreal error"}` instead of the parsed result. -/
theorem sendCommand_not_raw_parsed_result :
    jloads "\x7b\"success\": false\x7d".data
        = some (jobj (ocons "success".data (jbool false) onil)) ∧
    (sendCommandModel ⟨none, false⟩ "ping".data none ConnectOutcome.ok 0 none
        [RecvEvent.chunk (utf8Str "\x7b\"success\": false\x7d".data)]).ret
      ≠ some (ocons "success".data (jbool false) onil) := by
  constructor
  · decide
  · decide

/-- Witness for C1 on a concrete successful exchange. -/
theorem sendCommand_protocol_sequence_witness :
    sendCommandModel ⟨some 3, true⟩ "ping".data none ConnectOutcome.ok 7 none
        [RecvEvent.chunk (utf8Str "\x7b\"status\": \"ok\"\x7d".data)]
      = ⟨some (ocons "status".data (jstr "ok".data) onil), ⟨none, false⟩,
         [NetOp.closeSock 3,
          NetOp.connectTo UNREAL_HOST UNREAL_PORT,
          NetOp.sendBytes (utf8Str (dumps (jobj (commandObj "ping".data none)))),
          NetOp.closeSock 7]⟩ := by
  have h := sendCommand_protocol_sequence ⟨some 3, true⟩ "ping".data none 7
    [RecvEvent.chunk (utf8Str "\x7b\"status\": \"ok\"\x7d".data)]
    (utf8Str "\x7b\"status\": \"ok\"\x7d".data)
    "\x7b\"status\": \"ok\"\x7d".data
    (ocons "status".data (jstr "ok".data) onil)
    (by decide) (by decide) (by decide)
  rw [h]
  decide

/-- Pointwise monotonicity of carving: every grid entry already open in `m`
is still open in `m'` (the carver only opens cells, never closes them). -/
def MazeLE (m m' : Maze) : Prop := ∀ i j, m i j = false → m' i j = false

/-- Reflexivity of `MazeLE`. -/
theorem mazeLE_refl (m : Maze) : MazeLE m m := fun _ _ h => h

/-- Transitivity of `MazeLE`. -/
theorem mazeLE_trans {a b c : Maze} (h1 : MazeLE a b) (h2 : MazeLE b c) :
    MazeLE a c := fun i j h => h2 i j (h1 i j h)

/-- Opening one entry is monotone. -/
theorem mazeLE_mset_false (m : Maze) (i j : Int) : MazeLE m (mset m i j false) := by
  intro i' j' h
  unfold mset
  split
  · rfl
  · exact h

/-- The freshly set entry is open. -/
theorem mset_false_self (m : Maze) (i j : Int) : mset m i j false i j = false := by
  simp [mset]

/-- Monotone carving cannot increase the walled-center count. -/
theorem wcount_le_of_mazeLE (rows cols : Nat) (m m' : Maze) (h : MazeLE m m') :
    wcount rows cols m' ≤ wcount rows cols m := by
  unfold wcount
  apply Finset.card_le_card
  intro p hp
  rw [Finset.mem_filter] at hp ⊢
  refine ⟨hp.1, ?_⟩
  cases hm : m (2 * (p.1 : Int) + 1) (2 * (p.2 : Int) + 1) with
  | true => rfl
  | false => rw [h _ _ hm] at hp; exact absurd hp.2 (by simp)

/-- Opening an in-range walled center strictly decreases the walled-center
count. -/
theorem wcount_lt (rows cols : Nat) (m m' : Maze) (h : MazeLE m m')
    (u : Int × Int) (hin : cellInRange rows cols u = true)
    (hwall : m (2 * u.1 + 1) (2 * u.2 + 1) = true)
    (hopen : m' (2 * u.1 + 1) (2 * u.2 + 1) = false) :
    wcount rows cols m' < wcount rows cols m := by
  unfold cellInRange at hin
  rw [decide_eq_true_iff] at hin
  have hsub : ((Finset.range rows ×ˢ Finset.range cols).filter
        (fun p => m' (2 * (p.1 : Int) + 1) (2 * (p.2 : Int) + 1) = true))
      ⊆ ((Finset.range rows ×ˢ Finset.range cols).filter
        (fun p => m (2 * (p.1 : Int) + 1) (2 * (p.2 : Int) + 1) = true)) := by
    intro p hp
    rw [Finset.mem_filter] at hp ⊢
    refine ⟨hp.1, ?_⟩
    cases hm : m (2 * (p.1 : Int) + 1) (2 * (p.2 : Int) + 1) with
    | true => rfl
    | false => rw [h _ _ hm] at hp; exact absurd hp.2 (by simp)
  apply Finset.card_lt_card
  rw [Finset.ssubset_iff_of_subset hsub]
  refine ⟨(u.1.toNat, u.2.toNat), ?_, ?_⟩
  · rw [Finset.mem_filter]
    constructor
    · rw [Finset.mem_product, Finset.mem_range, Finset.mem_range]
      dsimp only
      omega
    · dsimp only
      rw [show ((u.1.toNat : Int)) = u.1 by omega,
          show ((u.2.toNat : Int)) = u.2 by omega]
      exact hwall
  · rw [Finset.mem_filter]
    intro hcon
    dsimp only at hcon
    rw [show ((u.1.toNat : Int)) = u.1 by omega,
        show ((u.2.toNat : Int)) = u.2 by omega] at hcon
    rw [hopen] at hcon
    exact absurd hcon.2 (by simp)

/-- A single in-range walled center makes the walled count positive. -/
theorem wcount_pos (rows cols : Nat) (m : Maze) (u : Int × Int)
    (hin : cellInRange rows cols u = true)
    (hwall : m (2 * u.1 + 1) (2 * u.2 + 1) = true) :
    0 < wcount rows cols m := by
  unfold cellInRange at hin
  rw [decide_eq_true_iff] at hin
  apply Finset.card_pos.mpr
  refine ⟨(u.1.toNat, u.2.toNat), ?_⟩
  rw [Finset.mem_filter]
  constructor
  · rw [Finset.mem_product, Finset.mem_range, Finset.mem_range]
    dsimp only
    omega
  · dsimp only
    rw [show ((u.1.toNat : Int)) = u.1 by omega,
        show ((u.2.toNat : Int)) = u.2 by omega]
    exact hwall

/-- Opening the wall between two cells touches no cell center: the wall
position differs from every center in parity (one coordinate is even). -/
theorem center_mset_wall (m : Maze) (u d : Int × Int) (hd : d ∈ baseDirs)
    (v : Int × Int) :
    mset m (2 * u.1 + 1 + d.1) (2 * u.2 + 1 + d.2) false
        (2 * v.1 + 1) (2 * v.2 + 1)
      = m (2 * v.1 + 1) (2 * v.2 + 1) := by
  unfold mset
  split
  · rename_i hcon
    exfalso
    obtain ⟨h1, h2⟩ := hcon
    fin_cases hd <;> simp_all <;> omega
  · rfl

/-- Totality of `carveF` at a given fuel: from any state whose walled
count is at most the fuel, a call on an in-range still-walled cell
succeeds, only opens entries, and strictly decreases the walled count. -/
def CarveTotal (shuffle : Int × Int → List (Int × Int)) (rows cols fuel : Nat) :
    Prop :=
  ∀ m u, cellInRange rows cols u = true →
    m (2 * u.1 + 1) (2 * u.2 + 1) = true →
    wcount rows cols m ≤ fuel →
    ∃ m', carveF shuffle rows cols fuel m u = some m' ∧ MazeLE m m' ∧
          wcount rows cols m' < wcount rows cols m

/-- The direction loop preserves totality: given totality of `carveF` at
the same fuel, the loop succeeds whenever the walled count is within the
fuel, only opens entries, and does not increase the walled count. -/
theorem carveLoopF_total (shuffle : Int × Int → List (Int × Int))
    (rows cols fuel : Nat) (ih : CarveTotal shuffle rows cols fuel) :
    ∀ ds m u, (∀ d ∈ ds, d ∈ baseDirs) →
      wcount rows cols m ≤ fuel →
      ∃ m', carveLoopF shuffle rows cols fuel m u ds = some m' ∧ MazeLE m m' ∧
            wcount rows cols m' ≤ wcount rows cols m := by
  intro ds
  induction ds with
  | nil =>
    intro m u _ _
    exact ⟨m, by simp [carveLoopF], mazeLE_refl m, le_refl _⟩
  | cons d ds ihds =>
    intro m u hds hf
    unfold carveLoopF
    dsimp only
    split
    · rename_i hguard
      rw [Bool.and_eq_true] at hguard
      have hdbase : d ∈ baseDirs := hds d (by simp)
      have hcenter : ∀ v : Int × Int,
          mset m (2 * u.1 + 1 + d.1) (2 * u.2 + 1 + d.2) false
            (2 * v.1 + 1) (2 * v.2 + 1) = m (2 * v.1 + 1) (2 * v.2 + 1) :=
        center_mset_wall m u d hdbase
      have hw1 : wcount rows cols
            (mset m (2 * u.1 + 1 + d.1) (2 * u.2 + 1 + d.2) false)
          = wcount rows cols m := by
        unfold wcount
        congr 1
        apply Finset.filter_congr
        intro p _
        rw [hcenter ((p.1 : Int), (p.2 : Int))]
      obtain ⟨m2, hm2, hle2, hlt2⟩ := ih
        (mset m (2 * u.1 + 1 + d.1) (2 * u.2 + 1 + d.2) false)
        (u.1 + d.1, u.2 + d.2) hguard.1
        (by rw [hcenter (u.1 + d.1, u.2 + d.2)]; exact hguard.2)
        (by omega)
      rw [hm2]
      obtain ⟨m', hm', hle', hw'⟩ := ihds m2 u (fun d' hd' => hds d' (by simp [hd']))
        (by omega)
      refine ⟨m', hm', ?_, by omega⟩
      exact mazeLE_trans (mazeLE_mset_false m _ _) (mazeLE_trans hle2 hle')
    · exact ihds m u (fun d' hd' => hds d' (by simp [hd'])) hf

/-- `carveF` is total: one unit of fuel per invocation suffices as long as
the fuel covers the walled-center count. -/
theorem carveF_total (shuffle : Int × Int → List (Int × Int)) (rows cols : Nat)
    (hsh : ∀ u, ∀ d ∈ shuffle u, d ∈ baseDirs) :
    ∀ fuel, CarveTotal shuffle rows cols fuel := by
  intro fuel
  induction fuel with
  | zero =>
    intro m u hin hwall hf
    exfalso
    have := wcount_pos rows cols m u hin hwall
    omega
  | succ f ihf =>
    intro m u hin hwall hf
    unfold carveF
    have hlt0 : wcount rows cols (mset m (2 * u.1 + 1) (2 * u.2 + 1) false)
        < wcount rows cols m :=
      wcount_lt rows cols m _ (mazeLE_mset_false m _ _) u hin hwall
        (mset_false_self m _ _)
    obtain ⟨m', h1, h2, h3⟩ := carveLoopF_total shuffle rows cols f ihf
      (shuffle u) (mset m (2 * u.1 + 1) (2 * u.2 + 1) false) u (hsh u) (by omega)
    exact ⟨m', h1, mazeLE_trans (mazeLE_mset_false m _ _) h2, by omega⟩

/-- C10: for every rows ≥ 1 and cols ≥ 1 and every outcome of the shuffles,
the recursive `carve_path` started at `(0, 0)` terminates: a recursive call
is made only on a neighbour whose center is still walled, and each
invocation first opens its own center, so the walled-center count strictly
decreases across invocations and `rows * cols` units of fuel — one per
invocation — are enough for the whole run. -/
theorem carve_path_terminates (shuffle : Int × Int → List (Int × Int))
    (rows cols : Nat) (hsh : ∀ u, List.Perm (shuffle u) baseDirs)
    (hr : 1 ≤ rows) (hc : 1 ≤ cols) :
    (∀ fuel m u, cellInRange rows cols u = true →
        m (2 * u.1 + 1) (2 * u.2 + 1) = true →
        wcount rows cols m ≤ fuel →
        ∃ m', carveF shuffle rows cols fuel m u = some m' ∧
              wcount rows cols m' < wcount rows cols m) ∧
    (carveF shuffle rows cols (rows * cols) initMaze (0, 0)).isSome = true := by
  have hsub : ∀ u, ∀ d ∈ shuffle u, d ∈ baseDirs :=
    fun u d hd => (hsh u).mem_iff.mp hd
  have htot := carveF_total shuffle rows cols hsub
  constructor
  · intro fuel m u hin hwall hf
    obtain ⟨m', h1, _, h3⟩ := htot fuel m u hin hwall hf
    exact ⟨m', h1, h3⟩
  · have hwc : wcount rows cols initMaze = rows * cols := by
      simp [wcount, initMaze, Finset.card_product]
    obtain ⟨m', h1, _, _⟩ := htot (rows * cols) initMaze (0, 0)
      (by unfold cellInRange; rw [decide_eq_true_iff]; omega)
      rfl (le_of_eq hwc)
    rw [h1]
    rfl

/-- Witness for C10 at a 1×1 maze with the identity shuffle. -/
theorem carve_path_terminates_witness :
    (carveF (fun _ => baseDirs) 1 1 (1 * 1) initMaze (0, 0)).isSome = true :=
  (carve_path_terminates (fun _ => baseDirs) 1 1 (fun _ => List.Perm.refl _)
    (by decide) (by decide)).2

/-- The start of an open path is open. -/
theorem OpenPath.src_open {m : Maze} {a b : Int × Int} (h : OpenPath m a b) :
    m a.1 a.2 = false := by
  cases h with
  | refl _ h => exact h
  | step _ _ _ h _ _ => exact h

/-- Paths survive monotone opening of the grid. -/
theorem OpenPath.mono {m m' : Maze} (hle : MazeLE m m') {a b : Int × Int}
    (h : OpenPath m a b) : OpenPath m' a b := by
  induction h with
  | refl p h => exact OpenPath.refl p (hle _ _ h)
  | step p q r h hadj _ ih => exact OpenPath.step p q r (hle _ _ h) hadj ih

/-- Concatenation of open paths. -/
theorem openPath_trans {m : Maze} {a b c : Int × Int} (h1 : OpenPath m a b) :
    OpenPath m b c → OpenPath m a c := by
  induction h1 with
  | refl p h => exact fun h2 => h2
  | step p q r h hadj _ ih => exact fun h2 => OpenPath.step p q c h hadj (ih h2)

/-- Orthogonal adjacency is symmetric. -/
theorem adj_symm {p q : Int × Int}
    (h : (p.1 - q.1).natAbs + (p.2 - q.2).natAbs = 1) :
    (q.1 - p.1).natAbs + (q.2 - p.2).natAbs = 1 := by omega

/-- Open paths reverse. -/
theorem OpenPath.symm {m : Maze} {a b : Int × Int} (h : OpenPath m a b) :
    OpenPath m b a := by
  induction h with
  | refl p h => exact OpenPath.refl p h
  | step p q r h hadj hq ih =>
      exact openPath_trans ih
        (OpenPath.step q p p hq.src_open (adj_symm hadj) (OpenPath.refl p h))

/-- The cell center and the wall position next to it, and that wall and the
neighbouring center, are orthogonally adjacent grid positions. -/
theorem adj_center_wall (u d : Int × Int) (hd : d ∈ baseDirs) :
    ((2 * (u.1 + d.1) + 1 - (2 * u.1 + 1 + d.1)).natAbs
      + (2 * (u.2 + d.2) + 1 - (2 * u.2 + 1 + d.2)).natAbs = 1) ∧
    ((2 * u.1 + 1 + d.1 - (2 * u.1 + 1)).natAbs
      + (2 * u.2 + 1 + d.2 - (2 * u.2 + 1)).natAbs = 1) := by
  fin_cases hd <;> constructor <;> simp <;> omega

/-- Invariant established by a successful `carveF` call: carving only
opens entries; the entered cell's center ends open; and every cell whose
center the call opened is in range, has every in-range neighbour's center
open at the end (its direction loop ran to completion), and is joined to
the entered cell's center by a path of open grid cells. -/
def CarveInv (shuffle : Int × Int → List (Int × Int)) (rows cols fuel : Nat) :
    Prop :=
  ∀ m u m', cellInRange rows cols u = true →
    carveF shuffle rows cols fuel m u = some m' →
    MazeLE m m' ∧ m' (2 * u.1 + 1) (2 * u.2 + 1) = false ∧
    ∀ v : Int × Int, m (2 * v.1 + 1) (2 * v.2 + 1) = true →
      m' (2 * v.1 + 1) (2 * v.2 + 1) = false →
      cellInRange rows cols v = true ∧
      (∀ d ∈ baseDirs, cellInRange rows cols (v.1 + d.1, v.2 + d.2) = true →
        m' (2 * (v.1 + d.1) + 1) (2 * (v.2 + d.2) + 1) = false) ∧
      OpenPath m' (2 * v.1 + 1, 2 * v.2 + 1) (2 * u.1 + 1, 2 * u.2 + 1)

/-- The loop body maintains the carve invariant: assuming the invariant for
recursive `carveF` calls at the same fuel, a completed direction loop over
`ds` only opens entries, gives every newly opened cell the full invariant,
and leaves the center of every in-range neighbour reached by a direction in
`ds` open. -/
theorem carveLoopF_inv (shuffle : Int × Int → List (Int × Int))
    (rows cols fuel : Nat) (ih : CarveInv shuffle rows cols fuel) :
    ∀ ds m u m', (∀ d ∈ ds, d ∈ baseDirs) →
      cellInRange rows cols u = true →
      m (2 * u.1 + 1) (2 * u.2 + 1) = false →
      carveLoopF shuffle rows cols fuel m u ds = some m' →
      MazeLE m m' ∧
      (∀ v : Int × Int, m (2 * v.1 + 1) (2 * v.2 + 1) = true →
        m' (2 * v.1 + 1) (2 * v.2 + 1) = false →
        cellInRange rows cols v = true ∧
        (∀ d ∈ baseDirs, cellInRange rows cols (v.1 + d.1, v.2 + d.2) = true →
          m' (2 * (v.1 + d.1) + 1) (2 * (v.2 + d.2) + 1) = false) ∧
        OpenPath m' (2 * v.1 + 1, 2 * v.2 + 1) (2 * u.1 + 1, 2 * u.2 + 1)) ∧
      (∀ d ∈ ds, cellInRange rows cols (u.1 + d.1, u.2 + d.2) = true →
        m' (2 * (u.1 + d.1) + 1) (2 * (u.2 + d.2) + 1) = false) := by
  intro ds
  induction ds with
  | nil =>
    intro m u m' _ _ _ hrun
    simp [carveLoopF] at hrun
    subst hrun
    refine ⟨mazeLE_refl m, ?_, by simp⟩
    intro v hvm hvm'
    rw [hvm] at hvm'
    cases hvm'
  | cons d ds ihds =>
    intro m u m' hds hinU hopenU hrun
    have hdbase : d ∈ baseDirs := hds d (by simp)
    unfold carveLoopF at hrun
    dsimp only at hrun
    split at hrun
    · rename_i hguard
      rw [Bool.and_eq_true] at hguard
      cases hsub : carveF shuffle rows cols fuel
          (mset m (2 * u.1 + 1 + d.1) (2 * u.2 + 1 + d.2) false)
          (u.1 + d.1, u.2 + d.2) with
      | none => rw [hsub] at hrun; cases hrun
      | some m2 =>
        rw [hsub] at hrun
        dsimp only at hrun
        have hcenter : ∀ v : Int × Int,
            mset m (2 * u.1 + 1 + d.1) (2 * u.2 + 1 + d.2) false
              (2 * v.1 + 1) (2 * v.2 + 1) = m (2 * v.1 + 1) (2 * v.2 + 1) :=
          center_mset_wall m u d hdbase
        obtain ⟨hle12, hopen2nu, hnew2⟩ := ih _ _ _ hguard.1 hsub
        have hopen2U : m2 (2 * u.1 + 1) (2 * u.2 + 1) = false := by
          apply hle12
          rw [hcenter u]
          exact hopenU
        obtain ⟨hle2', hnew', hcov'⟩ := ihds m2 u m'
          (fun d' hd' => hds d' (by simp [hd'])) hinU hopen2U hrun
        have hleAll : MazeLE m m' :=
          mazeLE_trans (mazeLE_mset_false m _ _) (mazeLE_trans hle12 hle2')
        have hwallopen : m' (2 * u.1 + 1 + d.1) (2 * u.2 + 1 + d.2) = false :=
          hle2' _ _ (hle12 _ _ (mset_false_self m _ _))
        have huopen : m' (2 * u.1 + 1) (2 * u.2 + 1) = false := hle2' _ _ hopen2U
        have hnuopen : m' (2 * (u.1 + d.1) + 1) (2 * (u.2 + d.2) + 1) = false :=
          hle2' _ _ hopen2nu
        have hbridge : OpenPath m'
            (2 * (u.1 + d.1) + 1, 2 * (u.2 + d.2) + 1)
            (2 * u.1 + 1, 2 * u.2 + 1) := by
          refine OpenPath.step _ (2 * u.1 + 1 + d.1, 2 * u.2 + 1 + d.2) _
            hnuopen (adj_center_wall u d hdbase).1 ?_
          exact OpenPath.step _ (2 * u.1 + 1, 2 * u.2 + 1) _
            hwallopen (adj_center_wall u d hdbase).2
            (OpenPath.refl _ huopen)
        refine ⟨hleAll, ?_, ?_⟩
        · intro v hvm hvm'
          by_cases hv2 : m2 (2 * v.1 + 1) (2 * v.2 + 1) = false
          · have hv1 : mset m (2 * u.1 + 1 + d.1) (2 * u.2 + 1 + d.2) false
                (2 * v.1 + 1) (2 * v.2 + 1) = true := (hcenter v).trans hvm ▸ rfl
            obtain ⟨hvin, hvnb, hvpath⟩ := hnew2 v ((hcenter v).symm ▸ hvm) hv2
            refine ⟨hvin, ?_, ?_⟩
            · intro d' hd' hind'
              exact hle2' _ _ (hvnb d' hd' hind')
            · exact openPath_trans (hvpath.mono hle2') hbridge
          · have hv2' : m2 (2 * v.1 + 1) (2 * v.2 + 1) = true := by
              cases h2 : m2 (2 * v.1 + 1) (2 * v.2 + 1) with
              | false => exact absurd h2 hv2
              | true => rfl
            exact hnew' v hv2' hvm'
        · intro d' hd' hind'
          rcases List.mem_cons.mp hd' with rfl | hd'
          · exact hnuopen
          · exact hcov' d' hd' hind'
    · rename_i hguard
      obtain ⟨hle', hnew', hcov'⟩ := ihds m u m'
        (fun d' hd' => hds d' (by simp [hd'])) hinU hopenU hrun
      refine ⟨hle', hnew', ?_⟩
      intro d' hd' hind'
      rcases List.mem_cons.mp hd' with rfl | hd'
      · rw [Bool.and_eq_true] at hguard
        push_neg at hguard
        have hnw : m (2 * (u.1 + d'.1) + 1) (2 * (u.2 + d'.2) + 1) = false := by
          have hg := hguard hind'
          simpa using hg
        exact hle' _ _ hnw
      · exact hcov' d' hd' hind'

/-- The carve invariant holds at every fuel. -/
theorem carveF_inv (shuffle : Int × Int → List (Int × Int)) (rows cols : Nat)
    (hsh : ∀ u, List.Perm (shuffle u) baseDirs) :
    ∀ fuel, CarveInv shuffle rows cols fuel := by
  intro fuel
  induction fuel with
  | zero =>
    intro m u m' hin hrun
    simp [carveF] at hrun
  | succ f ihf =>
    intro m u m' hin hrun
    unfold carveF at hrun
    obtain ⟨hle', hnew', hcov'⟩ := carveLoopF_inv shuffle rows cols f ihf
      (shuffle u) (mset m (2 * u.1 + 1) (2 * u.2 + 1) false) u m'
      (fun d hd => (hsh u).subset hd) hin (mset_false_self m _ _) hrun
    have huopen : m' (2 * u.1 + 1) (2 * u.2 + 1) = false :=
      hle' _ _ (mset_false_self m _ _)
    refine ⟨mazeLE_trans (mazeLE_mset_false m _ _) hle', huopen, ?_⟩
    intro v hvm hvm'
    by_cases hvu : v = u
    · subst hvu
      refine ⟨hin, ?_, OpenPath.refl _ huopen⟩
      intro d hd hind
      exact hcov' d ((hsh v).mem_iff.mpr hd) hind
    · have hv0 : mset m (2 * u.1 + 1) (2 * u.2 + 1) false
          (2 * v.1 + 1) (2 * v.2 + 1) = true := by
        unfold mset
        split
        · rename_i hcon
          exfalso
          apply hvu
          obtain ⟨h1, h2⟩ := hcon
          have e1 : v.1 = u.1 := by omega
          have e2 : v.2 = u.2 := by omega
          exact Prod.ext e1 e2
        · exact hvm
      exact hnew' v hv0 hvm'

/-- After the top-level carve on the fresh all-wall grid, every in-range
cell center is open and joined to the start center `(1, 1)` by a path of
open grid cells. -/
theorem carve_covers (shuffle : Int × Int → List (Int × Int)) (rows cols : Nat)
    (hsh : ∀ u, List.Perm (shuffle u) baseDirs) (hr : 1 ≤ rows) (hc : 1 ≤ cols)
    (m' : Maze)
    (hrun : carveF shuffle rows cols (rows * cols) initMaze (0, 0) = some m') :
    ∀ a b : Int, 0 ≤ a → a < (rows : Int) → 0 ≤ b → b < (cols : Int) →
      m' (2 * a + 1) (2 * b + 1) = false ∧
      OpenPath m' (2 * a + 1, 2 * b + 1) (1, 1) := by
  have hin0 : cellInRange rows cols (0, 0) = true := by
    unfold cellInRange
    rw [decide_eq_true_iff]
    refine ⟨le_refl 0, by omega, le_refl 0, by omega⟩
  obtain ⟨hle, hopen00, hnew⟩ :=
    carveF_inv shuffle rows cols hsh (rows * cols) initMaze (0, 0) m' hin0 hrun
  have h00 : m' 1 1 = false := by
    have h : m' (2 * (0 : Int) + 1) (2 * (0 : Int) + 1) = false := hopen00
    rwa [show (2 * (0 : Int) + 1) = 1 by ring] at h
  have hcl : ∀ v : Int × Int, m' (2 * v.1 + 1) (2 * v.2 + 1) = false →
      cellInRange rows cols v = true ∧
      (∀ d ∈ baseDirs, cellInRange rows cols (v.1 + d.1, v.2 + d.2) = true →
        m' (2 * (v.1 + d.1) + 1) (2 * (v.2 + d.2) + 1) = false) ∧
      OpenPath m' (2 * v.1 + 1, 2 * v.2 + 1) (1, 1) := by
    intro v hv
    obtain ⟨h1, h2, h3⟩ := hnew v rfl hv
    refine ⟨h1, h2, ?_⟩
    rwa [show ((2 * ((0, 0) : Int × Int).1 + 1, 2 * ((0, 0) : Int × Int).2 + 1) : Int × Int)
        = ((1 : Int), (1 : Int)) from by norm_num] at h3
  have hrow : ∀ k : Nat, (k : Int) < (rows : Int) →
      m' (2 * (k : Int) + 1) 1 = false := by
    intro k
    induction k with
    | zero =>
      intro _
      have h : m' (2 * ((0 : Nat) : Int) + 1) 1 = false := by
        rwa [show (2 * ((0 : Nat) : Int) + 1) = 1 by omega]
      exact h
    | succ n ihn =>
      intro hk
      have hn : (n : Int) < (rows : Int) := by push_cast at hk ⊢; omega
      have hopen := ihn hn
      have hopen' : m' (2 * ((n : Int), (0 : Int)).1 + 1)
          (2 * ((n : Int), (0 : Int)).2 + 1) = false := by
        rwa [show (2 * (((n : Int), (0 : Int)).2) + 1) = 1 from by norm_num]
      have h := (hcl ((n : Int), 0) hopen').2.1 (1, 0) (by simp [baseDirs])
        (by unfold cellInRange
            rw [decide_eq_true_iff]
            show 0 ≤ (n : Int) + 1 ∧ (n : Int) + 1 < (rows : Int) ∧
              0 ≤ (0 : Int) + 0 ∧ (0 : Int) + 0 < (cols : Int)
            omega)
      have h' : m' (2 * ((n : Int) + 1) + 1) (2 * ((0 : Int) + 0) + 1) = false := h
      rwa [show (2 * ((n : Int) + 1) + 1) = 2 * (((n + 1 : Nat)) : Int) + 1
            from by omega,
          show (2 * ((0 : Int) + 0) + 1) = 1 from by omega] at h'
  have hrowI : ∀ a : Int, 0 ≤ a → a < (rows : Int) → m' (2 * a + 1) 1 = false := by
    intro a ha har
    have h := hrow a.toNat (by omega)
    rwa [show ((a.toNat : Int)) = a by omega] at h
  have hcolI : ∀ a : Int, 0 ≤ a → a < (rows : Int) → ∀ k : Nat,
      (k : Int) < (cols : Int) → m' (2 * a + 1) (2 * (k : Int) + 1) = false := by
    intro a ha har k
    induction k with
    | zero =>
      intro _
      have h := hrowI a ha har
      rwa [show (1 : Int) = 2 * (((0 : Nat)) : Int) + 1 from by omega] at h
    | succ n ihn =>
      intro hk
      have hn : (n : Int) < (cols : Int) := by push_cast at hk ⊢; omega
      have hopen := ihn hn
      have hopen' : m' (2 * ((a, (n : Int)) : Int × Int).1 + 1)
          (2 * ((a, (n : Int)) : Int × Int).2 + 1) = false := hopen
      have h := (hcl (a, (n : Int)) hopen').2.1 (0, 1) (by simp [baseDirs])
        (by unfold cellInRange
            rw [decide_eq_true_iff]
            show 0 ≤ a + 0 ∧ a + 0 < (rows : Int) ∧
              0 ≤ (n : Int) + 1 ∧ (n : Int) + 1 < (cols : Int)
            omega)
      have h' : m' (2 * (a + 0) + 1) (2 * ((n : Int) + 1) + 1) = false := h
      rwa [show (2 * (a + 0) + 1) = 2 * a + 1 from by omega,
          show (2 * ((n : Int) + 1) + 1) = 2 * (((n + 1 : Nat)) : Int) + 1
            from by omega] at h'
  intro a b ha har hb hbr
  have hopen : m' (2 * a + 1) (2 * b + 1) = false := by
    have h := hcolI a ha har b.toNat (by omega)
    rwa [show ((b.toNat : Int)) = b by omega] at h
  refine ⟨hopen, ?_⟩
  exact (hcl (a, b) hopen).2.2

/-- C2: for every rows ≥ 1 and cols ≥ 1 and every outcome of the random
direction shuffles (one permutation of the four base directions per cell —
each cell's loop shuffles exactly once), `create_maze` produces a solvable
maze.  The `(2 rows + 1) × (2 cols + 1)` grid is freshly allocated inside
the call (the model is a pure function of its arguments, with no cross-call
state); `carve_path(0, 0)` completes within its fuel; afterwards every cell
center `maze[2 r + 1][2 c + 1]` is open and connected to `(1, 1)` through
orthogonally adjacent open cells; and once the entrance `maze[1][0]` and
the exit `maze[2 rows - 1][2 cols]` are opened there is a path of open
cells from entrance to exit. -/
theorem createMaze_solvable (shuffle : Int × Int → List (Int × Int))
    (rows cols : Nat) (hsh : ∀ u, List.Perm (shuffle u) baseDirs)
    (hr : 1 ≤ rows) (hc : 1 ≤ cols) :
    ∃ m, carveF shuffle rows cols (rows * cols) initMaze (0, 0) = some m ∧
      (∀ r c : Nat, r < rows → c < cols →
        m (2 * (r : Int) + 1) (2 * (c : Int) + 1) = false ∧
        OpenPath m (2 * (r : Int) + 1, 2 * (c : Int) + 1) (1, 1)) ∧
      ∃ mg, createMazeGrid shuffle rows cols = some mg ∧
        OpenPath mg (1, 0) (2 * (rows : Int) - 1, 2 * (cols : Int)) := by
  obtain ⟨m, hm⟩ : ∃ m,
      carveF shuffle rows cols (rows * cols) initMaze (0, 0) = some m := by
    have h := (carve_path_terminates shuffle rows cols hsh hr hc).2
    cases hcar : carveF shuffle rows cols (rows * cols) initMaze (0, 0) with
    | none => rw [hcar] at h; cases h
    | some m => exact ⟨m, rfl⟩
  have hcov := carve_covers shuffle rows cols hsh hr hc m hm
  refine ⟨m, hm, ?_, ?_⟩
  · intro r c hrr hcc
    exact hcov r c (by omega) (by omega) (by omega) (by omega)
  · refine ⟨mset (mset m 1 0 false) (2 * (rows : Int) - 1) (2 * (cols : Int)) false,
      ?_, ?_⟩
    · unfold createMazeGrid
      rw [hm]
    · have hleg : MazeLE m
          (mset (mset m 1 0 false) (2 * (rows : Int) - 1) (2 * (cols : Int)) false) :=
        mazeLE_trans (mazeLE_mset_false m 1 0) (mazeLE_mset_false _ _ _)
      have hent : mset (mset m 1 0 false) (2 * (rows : Int) - 1)
          (2 * (cols : Int)) false 1 0 = false := by
        unfold mset
        split
        · rfl
        · split
          · rfl
          · rename_i hcon
            exact absurd ⟨rfl, rfl⟩ hcon
      have hexit : mset (mset m 1 0 false) (2 * (rows : Int) - 1)
          (2 * (cols : Int)) false (2 * (rows : Int) - 1) (2 * (cols : Int))
          = false := mset_false_self _ _ _
      obtain ⟨hcopen, hcpath⟩ := hcov ((rows : Int) - 1) ((cols : Int) - 1)
        (by omega) (by omega) (by omega) (by omega)
      rw [show (2 * ((rows : Int) - 1) + 1) = 2 * (rows : Int) - 1 from by omega,
          show (2 * ((cols : Int) - 1) + 1) = 2 * (cols : Int) - 1 from by omega]
        at hcopen hcpath
      have p1 : OpenPath
          (mset (mset m 1 0 false) (2 * (rows : Int) - 1) (2 * (cols : Int)) false)
          (1, 1) (2 * (rows : Int) - 1, 2 * (cols : Int) - 1) :=
        hcpath.symm.mono hleg
      have hcopenG : mset (mset m 1 0 false) (2 * (rows : Int) - 1)
          (2 * (cols : Int)) false (2 * (rows : Int) - 1) (2 * (cols : Int) - 1)
          = false := hleg _ _ hcopen
      refine OpenPath.step (1, 0) (1, 1) _ hent (by decide) ?_
      refine openPath_trans p1 ?_
      exact OpenPath.step _ (2 * (rows : Int) - 1, 2 * (cols : Int)) _ hcopenG
        (by dsimp only; omega) (OpenPath.refl _ hexit)

/-- Witness for C2 at a 1×1 maze with the identity shuffle. -/
theorem createMaze_solvable_witness :
    ∃ m, carveF (fun _ => baseDirs) 1 1 (1 * 1) initMaze (0, 0) = some m ∧
      (∀ r c : Nat, r < 1 → c < 1 →
        m (2 * (r : Int) + 1) (2 * (c : Int) + 1) = false ∧
        OpenPath m (2 * (r : Int) + 1, 2 * (c : Int) + 1) (1, 1)) ∧
      ∃ mg, createMazeGrid (fun _ => baseDirs) 1 1 = some mg ∧
        OpenPath mg (1, 0) (2 * ((1 : Nat) : Int) - 1, 2 * ((1 : Nat) : Int)) :=
  createMaze_solvable (fun _ => baseDirs) 1 1 (fun _ => List.Perm.refl _)
    (by decide) (by decide)
